import Mathlib

/-!
Verification of the job scheduler of the mmpack CI server and repository-commit
engine.  The definitions below are a shallow embedding of the Python sources
(`repository.py`, `buildjob.py`, `jobscheduler.py`): pure computations become
Lean functions, the repository subprocess and the builders are abstracted by
an explicit environment that supplies the reply line of each repository
command and the outcome of each build, and raised Python exceptions become
`Except` results (an `Option PyErr` component models an exception escaping a
worker uncaught).
-/

namespace MmpackCI

/-- Python exceptions that the modelled code can raise. -/
inductive PyErr where
  | runtimeError (msg : String)
  | keyError (key : String)
  | indexError
deriving Repr, DecidableEq

/-- Python `str(exception)`: `RuntimeError(m)` prints `m`, `KeyError(k)`
prints the repr of the key, `IndexError` from an out-of-range list access
prints its standard message. -/
def pyStr : PyErr → String
  | .runtimeError m => m
  | .keyError k => "\x27" ++ k ++ "\x27"
  | .indexError => "list index out of range"

/-- Python strip of newlines: remove leading and trailing newline characters. -/
def pyStripNl (s : String) : String :=
  String.mk (((s.toList.dropWhile (· == '\n')).reverse.dropWhile (· == '\n')).reverse)

/-- Python `s.split(maxsplit=1)`: skip leading whitespace, take the first
whitespace-delimited token, then the remainder after the following whitespace
run (kept verbatim, dropped if empty). -/
def pySplit1 (s : String) : List String :=
  let cs := s.toList.dropWhile Char.isWhitespace
  match cs with
  | [] => []
  | _ =>
    let tok := cs.takeWhile (fun c => !c.isWhitespace)
    let rest := (cs.dropWhile (fun c => !c.isWhitespace)).dropWhile Char.isWhitespace
    if rest.isEmpty then [String.mk tok] else [String.mk tok, String.mk rest]

/-- Python `str` of a list of strings (no escaping needed for the messages
considered here), as interpolated into the failure message of the send helper. -/
def pyListRepr (l : List String) : String :=
  match l with
  | [] => "[]"
  | _ => "[" ++ String.intercalate ", " (l.map (fun s => "\x27" ++ s ++ "\x27")) ++ "]"

/-- The error message built in `Repository._send_cmd`:
the format string interpolating the command, the repository name and the reply message. -/
def mkFailMsg (cmd name : String) (msg : List String) : String :=
  "Failed to " ++ cmd ++ " in " ++ name ++ ": " ++ pyListRepr msg

/-- The state of the `Repository` class of `repository.py` visible to the protocol:
its display name (`<family>/<arch>`) and architecture.  The subprocess is
modelled by the list of reply lines still to be read from its stdout. -/
structure Repository where
  name : String
  arch : String
deriving Repr, DecidableEq

/-- Python `file.readline()` on the subprocess stdout: the next buffered
line, or the empty string at end of stream. -/
def pyReadline : List String → String × List String
  | [] => ("", [])
  | l :: rest => (l, rest)

/-- Embedding of `Repository._send_cmd`: write one newline-terminated command
line, read one reply line, split it; raise unless the first token is `OK`.
Returns the command lines written, the unread remainder of the reply stream,
and the outcome of the call. -/
def Repository.send_cmd (r : Repository) (cmd : String) (input : List String) :
    List String × List String × Except PyErr Unit :=
  let rl := pyReadline input
  match pySplit1 (pyStripNl rl.1) with
  | [] => ([cmd], rl.2, .error .indexError)
  | tok :: msg =>
    if tok = "OK" then ([cmd], rl.2, .ok ())
    else ([cmd], rl.2, .error (.runtimeError (mkFailMsg cmd r.name msg)))

/-- Embedding of `Repository.add`. -/
def Repository.add (r : Repository) (manifest_file : String) (input : List String) :
    List String × List String × Except PyErr Unit :=
  r.send_cmd ("ADD " ++ manifest_file) input

/-- Embedding of `Repository.commit`. -/
def Repository.commit (r : Repository) (input : List String) :
    List String × List String × Except PyErr Unit :=
  r.send_cmd "COMMIT" input

/-- Embedding of `Repository.rollback`. -/
def Repository.rollback (r : Repository) (input : List String) :
    List String × List String × Except PyErr Unit :=
  r.send_cmd "ROLLBACK" input

/-- One `*.mmpack-manifest` file of the `pkgdir` of a job, as parsed by
`BuildJob.merge_manifests`: the three common keys checked for consistency and
the per-architecture `binpkgs` mapping (an association list). -/
structure Manifest where
  name : String
  source : String
  version : String
  binpkgs : List (String × String)
deriving Repr, DecidableEq

/-- Python `dict.update`: keys of `e` overwrite existing entries of `d` in
place, new keys are appended in the order of `e`. -/
def dictUpdate (d e : List (String × String)) : List (String × String) :=
  (d.map (fun kv => match e.lookup kv.1 with
    | some v => (kv.1, v)
    | none => kv))
  ++ e.filter (fun kv => (d.lookup kv.1).isNone)

/-- The manifest-scanning loop of `BuildJob.merge_manifests`: the first file
seeds the merged document (the emptiness test on `merged`), the
`(name, source, version)` triple of every file is checked against that of the seed, and the
`binpkgs` mappings are merged by key union. -/
def mergeLoop : Option Manifest → List Manifest → Except PyErr (Option Manifest)
  | acc, [] => .ok acc
  | none, m :: rest =>
    mergeLoop (some { m with binpkgs := dictUpdate m.binpkgs m.binpkgs }) rest
  | some acc, m :: rest =>
    if acc.name = m.name ∧ acc.source = m.source ∧ acc.version = m.version then
      mergeLoop (some { acc with binpkgs := dictUpdate acc.binpkgs m.binpkgs }) rest
    else
      .error (.runtimeError "merging inconsistent manifest")

/-- Embedding of `BuildJob.merge_manifests` over the manifests found in
`pkgdir` (in glob order).  When no manifest file exists the merged mapping is
still the empty dict and the lookup of the `name` key raises a `KeyError`; otherwise
the merged document is written to `<pkgdir>/<name>_<version>.mmpack-manifest`
and that path is returned. -/
def merge_manifests (pkgdir : String) (ms : List Manifest) : Except PyErr String :=
  match mergeLoop none ms with
  | .error e => .error e
  | .ok none => .error (.keyError "name")
  | .ok (some m) => .ok (pkgdir ++ "/" ++ m.name ++ "_" ++ m.version ++ ".mmpack-manifest")

/-- Embedding of `BuildJob` as seen by the scheduler: `attrs` is the
`getattr(job, key, None)` view used by rule matching (a missing attribute is
`none`), `manifests` is the content of `pkgdir` at commit time, and the three
fields written by rule application are ordinary fields. -/
structure BuildJob where
  attrs : String → Option String
  pkgdir : String
  do_upload : Bool
  upload_repo : String
  archs : List String
  deps_repos : List String
  manifests : List Manifest

/-- Embedding of `FilterRule`: each compiled regex of `regex_map` becomes the
Boolean full-match function it denotes. -/
structure FilterRule where
  regex_map : List (String × (String → Bool))
  upload_repo : String
  archs : List String
  deps_repos : List String

/-- Embedding of `FilterRule.match`: every attribute named in `regex_map`
must exist on the job, be truthy (non-empty), and fully match its regex. -/
def FilterRule.matchJob (r : FilterRule) (job : BuildJob) : Bool :=
  r.regex_map.all (fun kv =>
    match job.attrs kv.1 with
    | none => false
    | some v => !(v == "") && kv.2 v)

/-- The effect of a matching rule in `JobScheduler.add_job`: its
`upload_repo`, `archs` and `deps_repos` are written onto the job. -/
def applyRule (r : FilterRule) (job : BuildJob) : BuildJob :=
  { job with upload_repo := r.upload_repo, archs := r.archs, deps_repos := r.deps_repos }

/-- The rule loop of `JobScheduler.add_job`: iterate the rules in insertion
order and apply the first one that matches (then `break`). -/
def applyRules : List FilterRule → BuildJob → BuildJob
  | [], job => job
  | r :: rs, job => if r.matchJob job then applyRule r job else applyRules rs job

/-- The mutable state of `_BuildScheduledJob` (the per-job join point).
`num_active_build` is an integer because Python would happily decrement it
below zero on a spurious extra call. -/
structure SJState where
  feedback_msgs : List String
  success : Bool
  num_active_build : Int
deriving Repr, DecidableEq

/-- Embedding of `_BuildScheduledJob.build_done` (the body runs under the
lock of the job): append the message, latch `success` to false on failure,
decrement the active count, and report whether `self` was pushed onto the
done queue of the scheduler (exactly when the count reaches zero). -/
def build_done (st : SJState) (ok : Bool) (msg : String) : SJState × Bool :=
  let msgs := st.feedback_msgs ++ [msg]
  let suc := if ok then st.success else false
  let n := st.num_active_build - 1
  ({ feedback_msgs := msgs, success := suc, num_active_build := n }, n = 0)

/-- A sequence of `build_done` calls in arrival order; returns the final join
state and how many of the calls pushed the job onto the done queue. -/
def runReports : SJState → List (Bool × String) → SJState × Nat
  | st, [] => (st, 0)
  | st, r :: rs =>
    let step := build_done st r.1 r.2
    let next := runReports step.1 rs
    (next.1, (if step.2 then 1 else 0) + next.2)

/-- A `_BuilderQueue` as seen by the selection policy: the architecture
of its builder and its current queue depth (`queue.qsize()`). -/
structure BuilderQueue where
  arch : String
  depth : Nat
deriving Repr, DecidableEq

/-- One insertion step of a stable sort: `x` (arriving later) goes after
every element whose key is less than or equal to its own. -/
def insertByKey (key : α → Nat) (x : α) : List α → List α
  | [] => [x]
  | y :: ys => if key y ≤ key x then y :: insertByKey key x ys else x :: y :: ys

/-- The stable Python list sort with a key function, as a stable insertion sort. -/
def pySortBy (key : α → Nat) (l : List α) : List α :=
  l.foldl (fun acc x => insertByKey key x acc) []

/-- The element the spec designates: the one with the smallest key, ties
broken in favour of the earlier element of `q :: l`. -/
def firstMinBy (key : α → Nat) (q : α) (l : List α) : α :=
  l.foldl (fun best p => if key p < key best then p else best) q

/-- Embedding of `JobScheduler._pick_builder_queue_for_arch`: filter the
builder queues on the requested architecture, raise if none matches,
otherwise stably sort by queue depth and return the head (the sort of a
nonempty list is nonempty, so matching on the sorted list realizes both the
emptiness test of the source and its head access). -/
def pick_builder_queue_for_arch (queues : List BuilderQueue) (arch : String) :
    Except PyErr BuilderQueue :=
  match pySortBy BuilderQueue.depth (queues.filter (fun q => q.arch == arch)) with
  | [] => .error (.runtimeError ("No builder producing " ++ arch ++ " architecture"))
  | q :: _ => .ok q

/-- The same selection carried out on queue identities (their index in the
queue list of the scheduler), used by `_schedule_job_for_build`: Python object
identity of the picked `_BuilderQueue` is its position. -/
def pickIdxForArch (queues : List BuilderQueue) (arch : String) : Except PyErr Nat :=
  match pySortBy (fun p => p.2.depth) (queues.enum.filter (fun p => p.2.arch == arch)) with
  | [] => .error (.runtimeError ("No builder producing " ++ arch ++ " architecture"))
  | p :: _ => .ok p.1

/-- Left-to-right effectful map with fail-fast propagation, the semantics of
the Python list comprehension over a raising function. -/
def mapExcept (f : α → Except ε β) : List α → Except ε (List β)
  | [] => .ok []
  | a :: as =>
    match f a with
    | .error e => .error e
    | .ok b =>
      match mapExcept f as with
      | .error e => .error e
      | .ok bs => .ok (b :: bs)

/-- Enqueueing a scheduled job on the builder queue at index `i` grows that
depth of that queue by one. -/
def bumpDepth (queues : List BuilderQueue) (i : Nat) : List BuilderQueue :=
  queues.enum.map (fun p => if p.1 = i then { p.2 with depth := p.2.depth + 1 } else p.2)

/-- Embedding of `JobScheduler._schedule_job_for_build`: first the list
comprehension picks a builder queue for every architecture (reading the
depths of the untouched queues; a failure raises before anything is
enqueued), then a `_BuildScheduledJob` is created with `num_build` equal to
the number of picked queues and enqueued on each of them.  Returns the
updated queues and the `num_active_build` of the created job. -/
def schedule_job_for_build (queues : List BuilderQueue) (archs : List String) :
    Except PyErr (List BuilderQueue × Nat) :=
  match mapExcept (pickIdxForArch queues) archs with
  | .error e => .error e
  | .ok idxs => .ok (idxs.foldl bumpDepth queues, idxs.length)

/-- A repository verb of the ADD/COMMIT/ROLLBACK protocol. -/
inductive RCmd where
  | add (manifest : String)
  | commit
  | rollback
deriving Repr, DecidableEq

/-- The command line written for a verb. -/
def cmdLine : RCmd → String
  | .add m => "ADD " ++ m
  | .commit => "COMMIT"
  | .rollback => "ROLLBACK"

/-- Externally observable events of a scheduler run: a command sent to the
repository `(upload_repo, arch)` — written to the subprocess whether or not
the reply is `OK` — and a `notify_result` callback. -/
inductive Event where
  | repoCmd (arch : String) (cmd : RCmd)
  | notify (success : Bool) (msg : Option String)
deriving Repr, DecidableEq

/-- The environment a run is resolved against: whether `make_srcpkg`
produces a package, the build outcome of each architecture, whether
`repos[upload_repo]` has an entry for an architecture, and the reply line the
repository subprocess of an architecture sends for each command. -/
structure SchedEnv where
  make_srcpkg_ok : Bool
  buildResult : String → Bool × String
  hasRepo : String → Bool
  reply : String → RCmd → String

/-- Whether the first whitespace-delimited token of a reply line is `OK`. -/
def isOkReply (s : String) : Bool :=
  match pySplit1 (pyStripNl s) with
  | [] => false
  | tok :: _ => tok == "OK"

/-- Outcome of one repository call made by the commit worker, routed through
the `Repository.send_cmd` protocol embedding with the reply line of the
environment (the repository object for `arch` is named by joining
`upload_repo` and `arch` with a slash,
as built in `JobScheduler.__init__`). -/
def repoCall (env : SchedEnv) (up arch : String) (c : RCmd) : Except PyErr Unit :=
  (Repository.send_cmd ⟨up ++ "/" ++ arch, arch⟩ (cmdLine c) [env.reply arch c]).2.2

/-- The `add` loop of `_process_build_done`: for each architecture look the
repository up (a missing key raises before the repository is recorded as
modified), record it in `modified_repos`, then send `ADD`.  Returns the
events emitted, the final `modified_repos`, and the exception if one was
raised. -/
def addLoop (env : SchedEnv) (up manifest : String) :
    List String → List Event × List String × Option PyErr
  | [] => ([], [], none)
  | a :: rest =>
    if env.hasRepo a then
      match repoCall env up a (.add manifest) with
      | .ok _ =>
        let next := addLoop env up manifest rest
        (.repoCmd a (.add manifest) :: next.1, a :: next.2.1, next.2.2)
      | .error e => ([.repoCmd a (.add manifest)], [a], some e)
    else
      ([], [], some (.keyError a))

/-- A straight-line loop sending one verb to each modified repository in
order, stopping at the first raising call (used for both the rollback
recovery and the final commit sweep). -/
def cmdLoop (env : SchedEnv) (up : String) (c : RCmd) :
    List String → List Event × Option PyErr
  | [] => ([], none)
  | a :: rest =>
    match repoCall env up a c with
    | .ok _ =>
      let next := cmdLoop env up c rest
      (.repoCmd a c :: next.1, next.2)
    | .error e => ([.repoCmd a c], some e)

/-- The `try` body of `_process_build_done`: merge the manifests, then run
the `add` loop (with `modified_repos` initially empty). -/
def tryBody (env : SchedEnv) (job : BuildJob) : List Event × List String × Option PyErr :=
  match merge_manifests job.pkgdir job.manifests with
  | .error e => ([], [], some e)
  | .ok manifest => addLoop env job.upload_repo manifest job.archs

/-- Embedding of `JobScheduler._process_build_done`.  A build failure or a
disabled upload notifies immediately.  Otherwise the `try` body runs; on an
exception the repositories modified so far are rolled back and the failure is
notified — unless a rollback itself raises, in which case the new exception
escapes the worker.  On success the commit sweep runs outside any handler: a
failing `COMMIT` escapes the worker and no notification is sent; otherwise
`notify_result(True)` fires (its message defaulting to `None`). -/
def process_build_done (env : SchedEnv) (job : BuildJob) (success : Bool)
    (feedback : String) : List Event × Option PyErr :=
  if !success then ([.notify false (some feedback)], none)
  else if !job.do_upload then ([.notify true (some "Packages upload skipped")], none)
  else
    let tb := tryBody env job
    match tb.2.2 with
    | some e =>
      let rb := cmdLoop env job.upload_repo .rollback tb.2.1
      match rb.2 with
      | some re => (tb.1 ++ rb.1, some re)
      | none => (tb.1 ++ rb.1 ++ [.notify false (some (pyStr e))], none)
    | none =>
      let cm := cmdLoop env job.upload_repo .commit tb.2.1
      match cm.2 with
      | some ce => (tb.1 ++ cm.1, some ce)
      | none => (tb.1 ++ cm.1 ++ [.notify true none], none)

/-- End-to-end run of one submitted job, sequencing `JobScheduler.add_job`
(rule application, the empty-`archs` drop, `make_srcpkg`, scheduling) with
the builds and the commit worker.  The concurrent join is sequentialized by
its proved behaviour (`runReports`): when each scheduled sub-build reports
exactly once, the done queue receives the scheduled job exactly once, with
`success` the conjunction of all reports and the feedback messages joined by
newlines; sub-build outcomes are read from the environment per architecture.
Returns the emitted events and the exception, if any, that escaped. -/
def runJob (env : SchedEnv) (rules : List FilterRule) (queues : List BuilderQueue)
    (job0 : BuildJob) : List Event × Option PyErr :=
  let job := applyRules rules job0
  if job.archs.isEmpty then ([], none)
  else if !env.make_srcpkg_ok then ([], none)
  else
    match schedule_job_for_build queues job.archs with
    | .error e => ([], some e)
    | .ok _ =>
      let results := job.archs.map env.buildResult
      let success := results.all (fun p => p.1)
      let feedback := String.intercalate "\n" (results.map (fun p => p.2))
      process_build_done env job success feedback

/-- Whether an event is a `notify_result` invocation. -/
def isNotifyEv : Event → Bool
  | .notify _ _ => true
  | .repoCmd _ _ => false

/-- Number of `notify_result` invocations in an event trace. -/
def countNotify (evs : List Event) : Nat :=
  (evs.filter isNotifyEv).length

/-! Concrete fixtures used to exercise the theorems on closed inputs. -/

/-- A well-formed manifest for the `foo` project. -/
def manifestFoo : Manifest := ⟨"foo", "foo", "1.0", [("x86", "foo_1.0_x86.mpk")]⟩

/-- A second manifest disagreeing with `manifestFoo` on `version`. -/
def manifestFooV2 : Manifest := ⟨"foo", "foo", "2.0", [("arm", "foo_2.0_arm.mpk")]⟩

/-- A job uploading to `main` for two architectures. -/
def jobTwoArch : BuildJob :=
  ⟨fun k => if k = "project" then some "foo" else none, "/d", true, "main",
   ["x86", "arm"], [], [manifestFoo]⟩

/-- A job whose `pkgdir` holds two inconsistent manifests. -/
def jobBadManifests : BuildJob := { jobTwoArch with manifests := [manifestFoo, manifestFooV2] }

/-- A job whose `pkgdir` holds no manifest file at all. -/
def jobNoManifest : BuildJob := { jobTwoArch with manifests := [] }

/-- An environment in which everything succeeds. -/
def envAllOk : SchedEnv :=
  ⟨true, fun _ => (true, "build succeed"), fun _ => true, fun _ _ => "OK"⟩

/-- Like `envAllOk` but `make_srcpkg` finds no mmpack packaging. -/
def envNoSrcpkg : SchedEnv := { envAllOk with make_srcpkg_ok := false }

/-- Like `envAllOk` but the `arm` repository rejects `COMMIT`. -/
def envCommitFail : SchedEnv :=
  { envAllOk with reply := fun a c =>
      match c with
      | .commit => if a == "arm" then "ERR disk full" else "OK"
      | _ => "OK" }

/-- Like `envAllOk` but the `arm` repository rejects `ADD`. -/
def envAddFail : SchedEnv :=
  { envAllOk with reply := fun a c =>
      match c with
      | .add _ => if a == "arm" then "ERR disk full" else "OK"
      | _ => "OK" }

/-- Like `envAddFail` but the recovery `ROLLBACK` on `x86` also fails. -/
def envRollbackFail : SchedEnv :=
  { envAllOk with reply := fun a c =>
      match c with
      | .add _ => if a == "arm" then "ERR disk full" else "OK"
      | .rollback => if a == "x86" then "ERR io error" else "OK"
      | .commit => "OK" }

/-- One idle builder queue per architecture of `jobTwoArch`. -/
def queuesTwo : List BuilderQueue := [⟨"x86", 0⟩, ⟨"arm", 0⟩]

/-- A rule whose pattern does not match the `foo` project. -/
def ruleBar : FilterRule := ⟨[("project", fun s => s == "bar")], "barrepo", ["arm"], []⟩

/-- A rule whose pattern matches the `foo` project. -/
def ruleFoo : FilterRule := ⟨[("project", fun s => s == "foo")], "foorepo", ["x86"], ["deps"]⟩

/-- A catch-all rule with no pattern. -/
def ruleAny : FilterRule := ⟨[], "anyrepo", ["riscv"], []⟩

/-! Theorems. -/

/-- C7: every `Repository.add`, `Repository.commit` and `Repository.rollback`
call writes exactly one command line and reads exactly one reply line; a
reply whose first whitespace-delimited token is not literally `OK` makes the
call fail with an error carrying the repository name, the command and the
server message, and a reply whose first token is `OK` makes it return
normally. -/
theorem C7_repository_protocol (r : Repository) (manifest_file line : String)
    (rest : List String) (tok : String) (msgs : List String)
    (htok : pySplit1 (pyStripNl line) = tok :: msgs) :
    (Repository.add r manifest_file (line :: rest) =
      (["ADD " ++ manifest_file], rest,
       if tok = "OK" then .ok ()
       else .error (.runtimeError (mkFailMsg ("ADD " ++ manifest_file) r.name msgs)))) ∧
    (Repository.commit r (line :: rest) =
      (["COMMIT"], rest,
       if tok = "OK" then .ok ()
       else .error (.runtimeError (mkFailMsg "COMMIT" r.name msgs)))) ∧
    (Repository.rollback r (line :: rest) =
      (["ROLLBACK"], rest,
       if tok = "OK" then .ok ()
       else .error (.runtimeError (mkFailMsg "ROLLBACK" r.name msgs)))) := by
  refine ⟨?_, ?_, ?_⟩ <;>
    simp only [Repository.add, Repository.commit, Repository.rollback,
      Repository.send_cmd, pyReadline, htok] <;>
    split <;> simp

/-- Witness for C7 on concrete replies: a `COMMIT` answered `ERR disk full`
fails with the full error message, an `ADD` answered `OK` succeeds. -/
theorem C7_repository_protocol_witness :
    Repository.commit ⟨"main/x86", "x86"⟩ ["ERR disk full"] =
      (["COMMIT"], [],
       .error (.runtimeError "Failed to COMMIT in main/x86: [\x27disk full\x27]")) ∧
    Repository.add ⟨"main/x86", "x86"⟩ "m.mmpack-manifest" ["OK"] =
      (["ADD m.mmpack-manifest"], [], .ok ()) := by
  constructor
  · exact (C7_repository_protocol ⟨"main/x86", "x86"⟩ "m.mmpack-manifest" "ERR disk full"
      [] "ERR" ["disk full"] (by decide)).2.1
  · exact (C7_repository_protocol ⟨"main/x86", "x86"⟩ "m.mmpack-manifest" "OK"
      [] "OK" [] (by decide)).1

/-- C9: a job whose `pkgdir` holds no `*.mmpack-manifest` file makes
`merge_manifests` raise a `KeyError` on the `name` key of the empty merged mapping;
the commit worker catches it, contacts no repository, and reports
`notify_result(false, cause)` with the stringified `KeyError` as cause. -/
theorem C9_empty_manifest_dir (env : SchedEnv) (job : BuildJob) (fb : String)
    (hup : job.do_upload = true) (hm : job.manifests = []) :
    merge_manifests job.pkgdir job.manifests = .error (.keyError "name") ∧
    process_build_done env job true fb =
      ([.notify false (some "\x27name\x27")], none) := by
  have hmg : merge_manifests job.pkgdir job.manifests = .error (.keyError "name") := by
    rw [hm]; rfl
  refine ⟨hmg, ?_⟩
  simp only [process_build_done, tryBody, hmg, hup, Bool.not_true, Bool.false_eq_true,
    if_false, cmdLoop]
  decide

/-- Witness for C9 at a concrete job with an empty manifest directory. -/
theorem C9_empty_manifest_dir_witness :
    process_build_done envAllOk jobNoManifest true "fb" =
      ([.notify false (some "\x27name\x27")], none) :=
  (C9_empty_manifest_dir envAllOk jobNoManifest "fb" rfl rfl).2

/-- Behaviour of a `build_done` sequence from an arbitrary join state:
messages are appended in arrival order, `success` is the conjunction of the
starting flag and all reports, the counter drops by the number of reports,
and the job is pushed once exactly when the counter crosses zero. -/
theorem runReports_eq (msgs : List String) (s : Bool) (z : Int)
    (rs : List (Bool × String)) :
    runReports ⟨msgs, s, z⟩ rs =
      (⟨msgs ++ rs.map (fun p => p.2), s && rs.all (fun p => p.1),
        z - rs.length⟩,
       if 1 ≤ z ∧ z ≤ (rs.length : Int) then 1 else 0) := by
  induction rs generalizing msgs s z with
  | nil =>
    simp only [runReports, List.map_nil, List.append_nil, List.all_nil, Bool.and_true,
      List.length_nil, Nat.cast_zero, sub_zero]
    rw [if_neg (by omega)]
  | cons r rest ih =>
    simp only [runReports, build_done]
    rw [ih]
    simp only [Prod.mk.injEq, SJState.mk.injEq, List.map_cons, List.all_cons,
      List.length_cons]
    refine ⟨⟨?_, ?_, ?_⟩, ?_⟩
    · simp
    · cases r.1 <;> cases s <;> simp
    · push_cast; ring
    · simp only [decide_eq_true_eq]
      split_ifs <;> omega

/-- C8: `build_done` appends the message, conjoins the success flag (a
one-way false latch), decrements the active count by one, and pushes exactly
when the count reaches zero; consequently, starting from `num_active_build =
N ≥ 1` with each of the N builders reporting once, the final `success` is the
conjunction of all reports, the messages are all collected, and the job is
pushed onto the commit queue exactly once. -/
theorem C8_build_done_join (st : SJState) (ok : Bool) (msg : String) (N : Nat)
    (reports : List (Bool × String)) (hN : 1 ≤ N) (hlen : reports.length = N) :
    (build_done st ok msg).1.feedback_msgs = st.feedback_msgs ++ [msg] ∧
    (build_done st ok msg).1.success = (st.success && ok) ∧
    (build_done st ok msg).1.num_active_build = st.num_active_build - 1 ∧
    ((build_done st ok msg).2 = true ↔ st.num_active_build = 1) ∧
    (runReports ⟨[], true, (N : Int)⟩ reports).1.success =
      reports.all (fun p => p.1) ∧
    (runReports ⟨[], true, (N : Int)⟩ reports).1.feedback_msgs =
      reports.map (fun p => p.2) ∧
    (runReports ⟨[], true, (N : Int)⟩ reports).2 = 1 := by
  refine ⟨rfl, ?_, rfl, ?_, ?_, ?_, ?_⟩
  · cases ok <;> simp [build_done]
  · simp only [build_done, decide_eq_true_eq]
    omega
  · rw [runReports_eq]; simp
  · rw [runReports_eq]; simp
  · rw [runReports_eq, hlen]
    simp only []
    rw [if_pos]
    exact ⟨by exact_mod_cast hN, le_refl _⟩

/-- Witness for C8: two builders, one failing report, starting from
`num_active_build = 2`. -/
theorem C8_build_done_join_witness :
    (runReports ⟨[], true, ((2 : Nat) : Int)⟩ [(true, "m1"), (false, "m2")]).1.success =
      false ∧
    (runReports ⟨[], true, ((2 : Nat) : Int)⟩ [(true, "m1"), (false, "m2")]).2 = 1 := by
  have h := C8_build_done_join ⟨[], true, 2⟩ true "m" 2 [(true, "m1"), (false, "m2")]
    (by decide) (by decide)
  exact ⟨by rw [h.2.2.2.2.1]; rfl, h.2.2.2.2.2.2⟩

/-- Rules that do not match are skipped by the rule loop. -/
theorem applyRules_append_of_no_match (pre l : List FilterRule) (job : BuildJob)
    (hpre : ∀ r2 ∈ pre, r2.matchJob job = false) :
    applyRules (pre ++ l) job = applyRules l job := by
  induction pre with
  | nil => rfl
  | cons r rs ih =>
    have hr := hpre r (by simp)
    simp only [List.cons_append, applyRules, hr, Bool.false_eq_true, if_false]
    exact ih (fun x hx => hpre x (by simp [hx]))

/-- C5: when a job is added, the rules are iterated in insertion order, the
first matching rule is applied — its `upload_repo`, `archs` and `deps_repos`
are written onto the job — and the rules after it have no effect on the
result. -/
theorem C5_first_rule_applies (pre post : List FilterRule) (r : FilterRule)
    (job : BuildJob)
    (hpre : ∀ r2 ∈ pre, r2.matchJob job = false) (hr : r.matchJob job = true) :
    applyRules (pre ++ r :: post) job = applyRule r job ∧
    ∀ post2, applyRules (pre ++ r :: post2) job = applyRules (pre ++ r :: post) job := by
  have key : ∀ p : List FilterRule, applyRules (pre ++ r :: p) job = applyRule r job := by
    intro p
    rw [applyRules_append_of_no_match pre _ job hpre]
    simp [applyRules, hr]
  exact ⟨key post, fun post2 => by rw [key post2, key post]⟩

/-- Witness for C5: among three concrete rules the second is the first match
and decides the routing; the catch-all third rule is ignored. -/
theorem C5_first_rule_applies_witness :
    applyRules [ruleBar, ruleFoo, ruleAny] jobTwoArch = applyRule ruleFoo jobTwoArch ∧
    (applyRules [ruleBar, ruleFoo, ruleAny] jobTwoArch).upload_repo = "foorepo" := by
  have h := C5_first_rule_applies [ruleBar] [ruleAny] ruleFoo jobTwoArch
    (by decide) (by decide)
  refine ⟨h.1, ?_⟩
  rw [show ([ruleBar, ruleFoo, ruleAny] : List FilterRule)
        = [ruleBar] ++ ruleFoo :: [ruleAny] from rfl, h.1]
  rfl

/-- Inserting into a list grows its length by one. -/
theorem length_insertByKey (key : α → Nat) (x : α) (l : List α) :
    (insertByKey key x l).length = l.length + 1 := by
  induction l with
  | nil => rfl
  | cons y ys ih =>
    simp only [insertByKey]
    split <;> simp [ih]

/-- Folding insertions preserves the total length. -/
theorem length_pySortBy_aux (key : α → Nat) (l acc : List α) :
    (l.foldl (fun a x => insertByKey key x a) acc).length = acc.length + l.length := by
  induction l generalizing acc with
  | nil => simp
  | cons x xs ih =>
    simp only [List.foldl_cons]
    rw [ih, length_insertByKey]
    simp only [List.length_cons]
    omega

/-- The stable sort preserves length. -/
theorem length_pySortBy (key : α → Nat) (l : List α) :
    (pySortBy key l).length = l.length := by
  simpa [pySortBy] using length_pySortBy_aux key l []

/-- The stable sort of a list is empty exactly when the list is. -/
theorem pySortBy_eq_nil_iff (key : α → Nat) (l : List α) :
    pySortBy key l = [] ↔ l = [] := by
  constructor
  · intro h
    have hl := length_pySortBy key l
    rw [h] at hl
    cases l with
    | nil => rfl
    | cons x xs => simp at hl
  · intro h; subst h; rfl

/-- Sorting a list with one more element at the end inserts that element. -/
theorem pySortBy_snoc (key : α → Nat) (l : List α) (x : α) :
    pySortBy key (l ++ [x]) = insertByKey key x (pySortBy key l) := by
  simp [pySortBy, List.foldl_append]

/-- `firstMinBy` over a list with one more element at the end. -/
theorem firstMinBy_snoc (key : α → Nat) (q x : α) (l : List α) :
    firstMinBy key q (l ++ [x]) =
      if key x < key (firstMinBy key q l) then x else firstMinBy key q l := by
  simp [firstMinBy, List.foldl_append]

/-- Unfolding `firstMinBy` one step from the left. -/
theorem firstMinBy_cons (key : α → Nat) (q x : α) (l : List α) :
    firstMinBy key q (x :: l) = firstMinBy key (if key x < key q then x else q) l := rfl

/-- The head of the stable sort is the first element of minimal key. -/
theorem head?_pySortBy (key : α → Nat) (q : α) (l : List α) :
    (pySortBy key (q :: l)).head? = some (firstMinBy key q l) := by
  induction l using List.reverseRecOn with
  | nil => rfl
  | append_singleton l x ih =>
    rw [show q :: (l ++ [x]) = (q :: l) ++ [x] from rfl, pySortBy_snoc, firstMinBy_snoc]
    cases hs : pySortBy key (q :: l) with
    | nil => exact absurd ((pySortBy_eq_nil_iff key _).mp hs) (by simp)
    | cons b t =>
      rw [hs] at ih
      simp only [List.head?_cons, Option.some.injEq] at ih
      subst ih
      simp only [insertByKey]
      split
      · rename_i hle
        rw [if_neg (by omega)]
        simp
      · rename_i hgt
        rw [if_pos (by omega)]
        simp

/-- The designated element belongs to the list. -/
theorem firstMinBy_mem (key : α → Nat) (q : α) (l : List α) :
    firstMinBy key q l ∈ q :: l := by
  induction l generalizing q with
  | nil => simp [firstMinBy]
  | cons x xs ih =>
    by_cases hx : key x < key q
    · rw [firstMinBy_cons, if_pos hx]
      rcases List.mem_cons.mp (ih x) with h | h
      · simp [h]
      · simp [h]
    · rw [firstMinBy_cons, if_neg hx]
      rcases List.mem_cons.mp (ih q) with h | h
      · simp [h]
      · simp [h]

/-- The designated element has minimal key. -/
theorem firstMinBy_min (key : α → Nat) (q : α) (l : List α) :
    ∀ p ∈ q :: l, key (firstMinBy key q l) ≤ key p := by
  induction l generalizing q with
  | nil =>
    intro p hp
    simp only [List.mem_cons, List.not_mem_nil, or_false] at hp
    subst hp
    simp [firstMinBy]
  | cons x xs ih =>
    intro p hp
    rcases List.mem_cons.mp hp with h | h
    · rw [h]
      by_cases hx : key x < key q
      · rw [firstMinBy_cons, if_pos hx]
        have hm := ih x x (by simp)
        omega
      · rw [firstMinBy_cons, if_neg hx]
        exact ih q q (by simp)
    · rcases List.mem_cons.mp h with h2 | h2
      · rw [h2]
        by_cases hx : key x < key q
        · rw [firstMinBy_cons, if_pos hx]
          exact ih x x (by simp)
        · rw [firstMinBy_cons, if_neg hx]
          have hm := ih q q (by simp)
          omega
      · by_cases hx : key x < key q
        · rw [firstMinBy_cons, if_pos hx]
          exact ih x p (by simp [h2])
        · rw [firstMinBy_cons, if_neg hx]
          exact ih q p (by simp [h2])

/-- The designated element is the first of minimal key: everything before it
in the list has a strictly larger key. -/
theorem firstMinBy_first (key : α → Nat) (q : α) (l : List α) :
    ∃ l1 l2, q :: l = l1 ++ firstMinBy key q l :: l2 ∧
      ∀ p ∈ l1, key (firstMinBy key q l) < key p := by
  induction l generalizing q with
  | nil => exact ⟨[], [], rfl, by simp⟩
  | cons x xs ih =>
    by_cases hx : key x < key q
    · rw [firstMinBy_cons, if_pos hx]
      obtain ⟨l1, l2, heq, hlt⟩ := ih x
      refine ⟨q :: l1, l2, ?_, ?_⟩
      · rw [List.cons_append, ← heq]
      · intro p hp
        rcases List.mem_cons.mp hp with h | h
        · subst h
          have hm := firstMinBy_min key x xs x (by simp)
          omega
        · exact hlt p h
    · rw [firstMinBy_cons, if_neg hx]
      obtain ⟨l1, l2, heq, hlt⟩ := ih q
      cases l1 with
      | nil =>
        simp only [List.nil_append] at heq
        injection heq with h1 h2
        refine ⟨[], x :: xs, ?_, by simp⟩
        rw [List.nil_append, ← h1]
      | cons h1 t1 =>
        rw [List.cons_append] at heq
        injection heq with e1 e2
        refine ⟨q :: x :: t1, l2, ?_, ?_⟩
        · simp only [List.cons_append]
          exact congrArg (List.cons q) (congrArg (List.cons x) e2)
        · intro p hp
          have hq : key (firstMinBy key q xs) < key q := by
            have := hlt h1 (by simp)
            rw [← e1] at this
            exact this
          rcases List.mem_cons.mp hp with h | h
          · subst h; exact hq
          · rcases List.mem_cons.mp h with h2 | h2
            · subst h2; omega
            · exact hlt p (by simp [h2])

/-- No queue matches: the pick raises the no-builder error. -/
theorem pick_matching_nil (queues : List BuilderQueue) (arch : String)
    (h : queues.filter (fun p => p.arch == arch) = []) :
    pick_builder_queue_for_arch queues arch =
      .error (.runtimeError ("No builder producing " ++ arch ++ " architecture")) := by
  unfold pick_builder_queue_for_arch
  rw [h]
  rfl

/-- Some queue matches: the pick returns the first of minimal depth. -/
theorem pick_matching_cons (queues : List BuilderQueue) (arch : String)
    (q : BuilderQueue) (rest : List BuilderQueue)
    (h : queues.filter (fun p => p.arch == arch) = q :: rest) :
    pick_builder_queue_for_arch queues arch =
      .ok (firstMinBy BuilderQueue.depth q rest) := by
  unfold pick_builder_queue_for_arch
  rw [h]
  have hh := head?_pySortBy BuilderQueue.depth q rest
  cases hs : pySortBy BuilderQueue.depth (q :: rest) with
  | nil => rw [hs] at hh; simp at hh
  | cons b t =>
    rw [hs] at hh
    simp only [List.head?_cons, Option.some.injEq] at hh
    rw [hh]

/-- C6: for a target architecture the scheduler considers exactly the builder
queues whose builder has that architecture; if none exists it raises the
no-builder error, and otherwise it picks the queue with the smallest current
depth, ties broken by iteration order (the picked queue is a member of the
matching list, has minimal depth, and every queue listed before it is
strictly deeper). -/
theorem C6_queue_selection (queues : List BuilderQueue) (arch : String) :
    (queues.filter (fun p => p.arch == arch) = [] →
      pick_builder_queue_for_arch queues arch =
        .error (.runtimeError ("No builder producing " ++ arch ++ " architecture"))) ∧
    (∀ q rest, queues.filter (fun p => p.arch == arch) = q :: rest →
      pick_builder_queue_for_arch queues arch =
        .ok (firstMinBy BuilderQueue.depth q rest) ∧
      firstMinBy BuilderQueue.depth q rest ∈ q :: rest ∧
      (∀ p ∈ q :: rest, (firstMinBy BuilderQueue.depth q rest).depth ≤ p.depth) ∧
      ∃ l1 l2, q :: rest = l1 ++ firstMinBy BuilderQueue.depth q rest :: l2 ∧
        ∀ p ∈ l1, (firstMinBy BuilderQueue.depth q rest).depth < p.depth) :=
  ⟨pick_matching_nil queues arch, fun q rest h =>
    ⟨pick_matching_cons queues arch q rest h, firstMinBy_mem _ q rest,
     firstMinBy_min _ q rest, firstMinBy_first _ q rest⟩⟩

/-- Witness for C6: among three `x86` queues of depths 2, 1, 1 the first
depth-1 queue wins; no builder produces `arm`. -/
theorem C6_queue_selection_witness :
    pick_builder_queue_for_arch [⟨"x86", 2⟩, ⟨"arm", 0⟩, ⟨"x86", 1⟩, ⟨"x86", 1⟩] "x86" =
      .ok ⟨"x86", 1⟩ ∧
    pick_builder_queue_for_arch [⟨"x86", 2⟩] "arm" =
      .error (.runtimeError "No builder producing arm architecture") := by
  constructor
  · exact ((C6_queue_selection [⟨"x86", 2⟩, ⟨"arm", 0⟩, ⟨"x86", 1⟩, ⟨"x86", 1⟩] "x86").2
      ⟨"x86", 2⟩ [⟨"x86", 1⟩, ⟨"x86", 1⟩] (by decide)).1
  · exact (C6_queue_selection [⟨"x86", 2⟩] "arm").1 (by decide)

/-- Filtering the enumerated list on the element is empty exactly when
filtering the plain list is. -/
theorem filter_enumFrom_nil (p : α → Bool) (l : List α) (n : Nat) :
    (List.enumFrom n l).filter (fun pr => p pr.2) = [] ↔ l.filter p = [] := by
  induction l generalizing n with
  | nil => simp
  | cons x xs ih =>
    by_cases hx : p x <;> simp [List.enumFrom, List.filter_cons, hx, ih]

/-- Specialization of `filter_enumFrom_nil` to `List.enum`. -/
theorem filter_enum_nil (p : α → Bool) (l : List α) :
    l.enum.filter (fun pr => p pr.2) = [] ↔ l.filter p = [] := by
  unfold List.enum
  exact filter_enumFrom_nil p l 0

/-- When no queue matches, the index-level pick raises the same error. -/
theorem pickIdx_error_of_nil (queues : List BuilderQueue) (a : String)
    (h : queues.filter (fun q => q.arch == a) = []) :
    pickIdxForArch queues a =
      .error (.runtimeError ("No builder producing " ++ a ++ " architecture")) := by
  unfold pickIdxForArch
  rw [(filter_enum_nil (fun q => q.arch == a) queues).mpr h]
  rfl

/-- When some queue matches, the index-level pick succeeds. -/
theorem pickIdx_ok_of_ne (queues : List BuilderQueue) (a : String)
    (h : queues.filter (fun q => q.arch == a) ≠ []) :
    ∃ i, pickIdxForArch queues a = .ok i := by
  unfold pickIdxForArch
  cases hs : pySortBy (fun p => p.2.depth) (queues.enum.filter (fun p => p.2.arch == a)) with
  | nil =>
    exact absurd ((filter_enum_nil (fun q => q.arch == a) queues).mp
      ((pySortBy_eq_nil_iff _ _).mp hs)) h
  | cons p t => exact ⟨p.1, rfl⟩

/-- The index-level pick fails only with the no-builder error, and only when
no queue matches. -/
theorem pickIdx_error_elim (queues : List BuilderQueue) (a : String) (e : PyErr)
    (h : pickIdxForArch queues a = .error e) :
    queues.filter (fun q => q.arch == a) = [] ∧
      e = .runtimeError ("No builder producing " ++ a ++ " architecture") := by
  unfold pickIdxForArch at h
  cases hs : pySortBy (fun p => p.2.depth) (queues.enum.filter (fun p => p.2.arch == a)) with
  | nil =>
    rw [hs] at h
    simp only [Except.error.injEq] at h
    exact ⟨(filter_enum_nil (fun q => q.arch == a) queues).mp
      ((pySortBy_eq_nil_iff _ _).mp hs), h.symm⟩
  | cons p t =>
    rw [hs] at h
    simp at h

/-- A successful fail-fast map preserves length. -/
theorem mapExcept_ok_length (f : α → Except ε β) (l : List α) (bs : List β)
    (h : mapExcept f l = .ok bs) : bs.length = l.length := by
  induction l generalizing bs with
  | nil =>
    simp only [mapExcept, Except.ok.injEq] at h
    subst h
    rfl
  | cons a as ih =>
    simp only [mapExcept] at h
    cases hf : f a with
    | error e => rw [hf] at h; simp at h
    | ok b =>
      rw [hf] at h
      cases hm : mapExcept f as with
      | error e => rw [hm] at h; simp at h
      | ok bs2 =>
        rw [hm] at h
        simp only [Except.ok.injEq] at h
        subst h
        simp [ih bs2 hm]

/-- A failing fail-fast map exposes a failing element. -/
theorem mapExcept_error_elim (f : α → Except ε β) (l : List α) (e : ε)
    (h : mapExcept f l = .error e) : ∃ a ∈ l, f a = .error e := by
  induction l with
  | nil => simp [mapExcept] at h
  | cons a as ih =>
    simp only [mapExcept] at h
    cases hf : f a with
    | error e2 =>
      rw [hf] at h
      simp only [Except.error.injEq] at h
      exact ⟨a, by simp, by rw [hf, h]⟩
    | ok b =>
      rw [hf] at h
      cases hm : mapExcept f as with
      | error e2 =>
        rw [hm] at h
        simp only [Except.error.injEq] at h
        obtain ⟨x, hx, hfx⟩ := ih (by rw [hm, h])
        exact ⟨x, by simp [hx], hfx⟩
      | ok bs => rw [hm] at h; simp at h

/-- A failing element makes the fail-fast map fail. -/
theorem mapExcept_error_of_mem (f : α → Except ε β) (l : List α) (x : α) (ex : ε)
    (hx : x ∈ l) (hfx : f x = .error ex) : ∃ e, mapExcept f l = .error e := by
  induction l with
  | nil => simp at hx
  | cons a as ih =>
    rcases List.mem_cons.mp hx with h | h
    · subst h
      exact ⟨ex, by simp [mapExcept, hfx]⟩
    · cases hf : f a with
      | error e2 => exact ⟨e2, by simp [mapExcept, hf]⟩
      | ok b =>
        obtain ⟨e, he⟩ := ih h
        exact ⟨e, by simp [mapExcept, hf, he]⟩

/-- C10: fan-out is all-or-nothing.  `_schedule_job_for_build` fails exactly
when some architecture of the job has no matching builder queue; the raised
error is the no-builder error of such an architecture and, since every queue
pick happens before any enqueue, the failure returns no updated queue state
and creates no scheduled job; on success the created scheduled job counts one
build per architecture. -/
theorem C10_allornothing_fanout (queues : List BuilderQueue) (archs : List String) :
    ((∃ a ∈ archs, queues.filter (fun q => q.arch == a) = []) ↔
      ∃ e, schedule_job_for_build queues archs = .error e) ∧
    (∀ e, schedule_job_for_build queues archs = .error e →
      ∃ a ∈ archs, queues.filter (fun q => q.arch == a) = [] ∧
        e = .runtimeError ("No builder producing " ++ a ++ " architecture")) ∧
    (∀ qs2 n, schedule_job_for_build queues archs = .ok (qs2, n) → n = archs.length) := by
  have herr : ∀ e, schedule_job_for_build queues archs = .error e →
      mapExcept (pickIdxForArch queues) archs = .error e := by
    intro e h
    unfold schedule_job_for_build at h
    cases hm : mapExcept (pickIdxForArch queues) archs with
    | error e2 => rw [hm] at h; simp only [Except.error.injEq] at h; rw [h]
    | ok idxs => rw [hm] at h; simp at h
  have part2 : ∀ e, schedule_job_for_build queues archs = .error e →
      ∃ a ∈ archs, queues.filter (fun q => q.arch == a) = [] ∧
        e = .runtimeError ("No builder producing " ++ a ++ " architecture") := by
    intro e h
    obtain ⟨a, ha, hfa⟩ := mapExcept_error_elim _ _ _ (herr e h)
    obtain ⟨hfil, he⟩ := pickIdx_error_elim queues a e hfa
    exact ⟨a, ha, hfil, he⟩
  refine ⟨⟨?_, ?_⟩, part2, ?_⟩
  · rintro ⟨a, ha, hfil⟩
    obtain ⟨e, he⟩ := mapExcept_error_of_mem (pickIdxForArch queues) archs a _ ha
      (pickIdx_error_of_nil queues a hfil)
    exact ⟨e, by unfold schedule_job_for_build; rw [he]⟩
  · rintro ⟨e, h⟩
    obtain ⟨a, ha, hfil, _⟩ := part2 e h
    exact ⟨a, ha, hfil⟩
  · intro qs2 n h
    unfold schedule_job_for_build at h
    cases hm : mapExcept (pickIdxForArch queues) archs with
    | error e => rw [hm] at h; simp at h
    | ok idxs =>
      rw [hm] at h
      simp only [Except.ok.injEq, Prod.mk.injEq] at h
      rw [← h.2]
      exact mapExcept_ok_length _ _ _ hm

/-- Witness for C10 at a concrete input: the `arm` architecture has no
builder, so scheduling the two-arch job fails. -/
theorem C10_allornothing_fanout_witness :
    ∃ e, schedule_job_for_build [⟨"x86", 0⟩] ["x86", "arm"] = .error e :=
  (C10_allornothing_fanout [⟨"x86", 0⟩] ["x86", "arm"]).1.mp
    ⟨"arm", by decide, by decide⟩

/-- A repository call succeeds exactly when the first reply token is `OK`. -/
theorem repoCall_ok_iff (env : SchedEnv) (up a : String) (c : RCmd) :
    repoCall env up a c = .ok () ↔ isOkReply (env.reply a c) = true := by
  simp only [repoCall, Repository.send_cmd, pyReadline, isOkReply]
  cases h : pySplit1 (pyStripNl (env.reply a c)) with
  | nil => simp
  | cons tok msg => by_cases htok : tok = "OK" <;> simp [htok]

/-- A non-`OK` reply makes the repository call raise. -/
theorem repoCall_error_of (env : SchedEnv) (up a : String) (c : RCmd)
    (h : isOkReply (env.reply a c) = false) :
    ∃ e, repoCall env up a c = .error e := by
  cases he : repoCall env up a c with
  | error e => exact ⟨e, rfl⟩
  | ok u =>
    cases u
    have ht := (repoCall_ok_iff env up a c).mp he
    rw [h] at ht
    exact absurd ht (by simp)

/-- A command loop over repositories whose replies are all `OK` sends the
verb to each of them in order and raises nothing. -/
theorem cmdLoop_ok (env : SchedEnv) (up : String) (c : RCmd) (l : List String)
    (h : ∀ a ∈ l, isOkReply (env.reply a c) = true) :
    cmdLoop env up c l = (l.map (fun a => Event.repoCmd a c), none) := by
  induction l with
  | nil => rfl
  | cons a rest ih =>
    have ha : repoCall env up a c = .ok () :=
      (repoCall_ok_iff env up a c).mpr (h a (by simp))
    simp [cmdLoop, ha, ih (fun x hx => h x (by simp [hx]))]

/-- A command loop stops at the first repository whose reply is not `OK`:
the verb is sent to the good prefix and to the failing repository, the rest
is never contacted, and the failure is raised. -/
theorem cmdLoop_fail (env : SchedEnv) (up : String) (c : RCmd)
    (good : List String) (bad : String) (rest : List String)
    (hg : ∀ a ∈ good, isOkReply (env.reply a c) = true)
    (hb : isOkReply (env.reply bad c) = false) :
    ∃ e, cmdLoop env up c (good ++ bad :: rest) =
      ((good ++ [bad]).map (fun a => Event.repoCmd a c), some e) := by
  induction good with
  | nil =>
    obtain ⟨e, he⟩ := repoCall_error_of env up bad c hb
    exact ⟨e, by simp [cmdLoop, he]⟩
  | cons a g ih =>
    have ha : repoCall env up a c = .ok () :=
      (repoCall_ok_iff env up a c).mpr (hg a (by simp))
    obtain ⟨e, he⟩ := ih (fun x hx => hg x (by simp [hx]))
    exact ⟨e, by simp [cmdLoop, ha, he]⟩

/-- An `add` loop over present repositories whose replies are all `OK`
records and stages every architecture in order. -/
theorem addLoop_ok (env : SchedEnv) (up m : String) (l : List String)
    (h : ∀ a ∈ l, env.hasRepo a = true ∧ isOkReply (env.reply a (.add m)) = true) :
    addLoop env up m l = (l.map (fun a => Event.repoCmd a (.add m)), l, none) := by
  induction l with
  | nil => rfl
  | cons a rest ih =>
    have ha := h a (by simp)
    have hadd : repoCall env up a (.add m) = .ok () :=
      (repoCall_ok_iff env up a _).mpr ha.2
    simp [addLoop, ha.1, hadd, ih (fun x hx => h x (by simp [hx]))]

/-- An `add` loop whose first failure is the rejected `ADD` of `bad`: the
repositories before it and `bad` itself received `ADD` and are recorded as
modified, the rest is untouched, and the failure is raised. -/
theorem addLoop_fail (env : SchedEnv) (up m : String) (good : List String)
    (bad : String) (rest : List String)
    (hg : ∀ a ∈ good, env.hasRepo a = true ∧ isOkReply (env.reply a (.add m)) = true)
    (hbr : env.hasRepo bad = true) (hb : isOkReply (env.reply bad (.add m)) = false) :
    ∃ e, addLoop env up m (good ++ bad :: rest) =
      ((good ++ [bad]).map (fun a => Event.repoCmd a (.add m)), good ++ [bad], some e) := by
  induction good with
  | nil =>
    obtain ⟨e, he⟩ := repoCall_error_of env up bad (.add m) hb
    exact ⟨e, by simp [addLoop, hbr, he]⟩
  | cons a g ih =>
    have ha := hg a (by simp)
    have hadd : repoCall env up a (.add m) = .ok () :=
      (repoCall_ok_iff env up a _).mpr ha.2
    obtain ⟨e, he⟩ := ih (fun x hx => hg x (by simp [hx]))
    exact ⟨e, by simp [addLoop, ha.1, hadd, he]⟩

/-- Notification counting distributes over concatenation. -/
theorem countNotify_append (l1 l2 : List Event) :
    countNotify (l1 ++ l2) = countNotify l1 + countNotify l2 := by
  simp [countNotify, List.filter_append]

/-- A repository command is not a notification. -/
theorem countNotify_repoCmd_cons (a : String) (c : RCmd) (l : List Event) :
    countNotify (.repoCmd a c :: l) = countNotify l := by
  simp [countNotify, List.filter_cons, isNotifyEv]

/-- A lone notification counts once. -/
theorem countNotify_notify_single (b : Bool) (m : Option String) :
    countNotify [Event.notify b m] = 1 := rfl

/-- A list of repository commands contains no notification. -/
theorem countNotify_map_repoCmd (f : String → RCmd) (l : List String) :
    countNotify (l.map (fun a => Event.repoCmd a (f a))) = 0 := by
  induction l with
  | nil => rfl
  | cons a rest ih => simp [countNotify_repoCmd_cons, ih]

/-- A command loop emits no notification. -/
theorem countNotify_cmdLoop (env : SchedEnv) (up : String) (c : RCmd) (l : List String) :
    countNotify (cmdLoop env up c l).1 = 0 := by
  induction l with
  | nil => rfl
  | cons a rest ih =>
    simp only [cmdLoop]
    cases h : repoCall env up a c with
    | ok u => cases u; simp [countNotify_repoCmd_cons, ih]
    | error e => simp [countNotify, isNotifyEv]

/-- An `add` loop emits no notification. -/
theorem countNotify_addLoop (env : SchedEnv) (up m : String) (l : List String) :
    countNotify (addLoop env up m l).1 = 0 := by
  induction l with
  | nil => rfl
  | cons a rest ih =>
    simp only [addLoop]
    by_cases hr : env.hasRepo a
    · simp only [hr, if_true]
      cases h : repoCall env up a (.add m) with
      | ok u => cases u; simp [countNotify_repoCmd_cons, ih]
      | error e => simp [countNotify, isNotifyEv]
    · simp [hr, countNotify]

/-- The whole `try` body emits no notification. -/
theorem countNotify_tryBody (env : SchedEnv) (job : BuildJob) :
    countNotify (tryBody env job).1 = 0 := by
  unfold tryBody
  cases merge_manifests job.pkgdir job.manifests with
  | error e => rfl
  | ok m => exact countNotify_addLoop env job.upload_repo m job.archs

/-- The commit worker notifies at most once per processed job, and exactly
once iff no exception escapes it. -/
theorem pbd_notify (env : SchedEnv) (job : BuildJob) (success : Bool) (feedback : String) :
    countNotify (process_build_done env job success feedback).1 ≤ 1 ∧
    (countNotify (process_build_done env job success feedback).1 = 1 ↔
      (process_build_done env job success feedback).2 = none) := by
  rcases htb : tryBody env job with ⟨evs, mods, merr⟩
  have hevs : countNotify evs = 0 := by
    have h := countNotify_tryBody env job
    rw [htb] at h
    exact h
  cases success with
  | false => simp [process_build_done, countNotify, isNotifyEv]
  | true =>
    cases hup : job.do_upload with
    | false => simp [process_build_done, hup, countNotify, isNotifyEv]
    | true =>
      cases merr with
      | some e =>
        rcases hrb : cmdLoop env job.upload_repo RCmd.rollback mods with ⟨revs, rerr⟩
        have hrevs : countNotify revs = 0 := by
          have h := countNotify_cmdLoop env job.upload_repo RCmd.rollback mods
          rw [hrb] at h
          exact h
        cases rerr with
        | some re =>
          simp [process_build_done, hup, htb, hrb, countNotify_append, hevs, hrevs]
        | none =>
          simp [process_build_done, hup, htb, hrb, countNotify_append, hevs, hrevs,
            countNotify_notify_single]
      | none =>
        rcases hcm : cmdLoop env job.upload_repo RCmd.commit mods with ⟨cevs, cerr⟩
        have hcevs : countNotify cevs = 0 := by
          have h := countNotify_cmdLoop env job.upload_repo RCmd.commit mods
          rw [hcm] at h
          exact h
        cases cerr with
        | some ce =>
          simp [process_build_done, hup, htb, hcm, countNotify_append, hevs, hcevs]
        | none =>
          simp [process_build_done, hup, htb, hcm, countNotify_append, hevs, hcevs,
            countNotify_notify_single]

/-- C4 (confirmed): for a job with non-empty `archs` and `do_upload` whose
builds, manifest merge and repository commands all succeed, the commit
worker sends `ADD` to each repository `(upload_repo, arch)` in the listed
order of the archs, then `COMMIT` to each in the same order — all adds before all
commits, each exactly once when the archs are distinct — and finally calls
`notify_result(true, None)` and raises nothing. -/
theorem C4_successful_commit_order (env : SchedEnv) (job : BuildJob) (m fb : String)
    (hup : job.do_upload = true) (hne : job.archs ≠ [])
    (hmerge : merge_manifests job.pkgdir job.manifests = .ok m)
    (hok : ∀ a ∈ job.archs, env.hasRepo a = true ∧
      isOkReply (env.reply a (.add m)) = true ∧
      isOkReply (env.reply a RCmd.commit) = true) :
    process_build_done env job true fb =
      (job.archs.map (fun a => Event.repoCmd a (.add m)) ++
       job.archs.map (fun a => Event.repoCmd a RCmd.commit) ++
       [Event.notify true none], none) ∧
    (job.archs.Nodup → ∀ a ∈ job.archs,
      (process_build_done env job true fb).1.count (Event.repoCmd a (.add m)) = 1 ∧
      (process_build_done env job true fb).1.count (Event.repoCmd a RCmd.commit) = 1) := by
  have htb : tryBody env job =
      (job.archs.map (fun a => Event.repoCmd a (.add m)), job.archs, none) := by
    unfold tryBody
    rw [hmerge]
    exact addLoop_ok env job.upload_repo m job.archs
      (fun a ha => ⟨(hok a ha).1, (hok a ha).2.1⟩)
  have hcm := cmdLoop_ok env job.upload_repo RCmd.commit job.archs
    (fun a ha => (hok a ha).2.2)
  have hmain : process_build_done env job true fb =
      (job.archs.map (fun a => Event.repoCmd a (.add m)) ++
       job.archs.map (fun a => Event.repoCmd a RCmd.commit) ++
       [Event.notify true none], none) := by
    simp [process_build_done, hup, htb, hcm]
  refine ⟨hmain, fun hnd a ha => ?_⟩
  rw [hmain]
  have hinj1 : Function.Injective (fun x => Event.repoCmd x (RCmd.add m)) := by
    intro x y hxy
    simpa using hxy
  have hinj2 : Function.Injective (fun x => Event.repoCmd x RCmd.commit) := by
    intro x y hxy
    simpa using hxy
  constructor
  · simp only [List.count_append]
    rw [List.count_map_of_injective job.archs _ hinj1 a,
      List.count_eq_one_of_mem hnd ha,
      List.count_eq_zero.mpr (by simp), List.count_eq_zero.mpr (by simp)]
  · simp only [List.count_append]
    rw [List.count_map_of_injective job.archs _ hinj2 a,
      List.count_eq_one_of_mem hnd ha,
      List.count_eq_zero.mpr (by simp), List.count_eq_zero.mpr (by simp)]

/-- Witness for C4 at the concrete two-arch job in the all-`OK` environment. -/
theorem C4_successful_commit_order_witness :
    process_build_done envAllOk jobTwoArch true "fb" =
      (["x86", "arm"].map
         (fun a => Event.repoCmd a (.add "/d/foo_1.0.mmpack-manifest")) ++
       ["x86", "arm"].map (fun a => Event.repoCmd a RCmd.commit) ++
       [Event.notify true none], none) := by
  have h := C4_successful_commit_order envAllOk jobTwoArch "/d/foo_1.0.mmpack-manifest" "fb"
    rfl (by decide) rfl (by decide)
  exact h.1

/-- C2 counterexample: with every build and every `ADD` succeeding but the
`arm` repository rejecting `COMMIT`, the run sends both adds and both
commits (so `x86` is already committed and keeps its change, no rollback is
sent), yet no `notify_result` of any kind occurs: the exception escapes the
commit worker, contradicting the claim that the failure is reported via
`notify_result(false, cause)`. -/
theorem C2_counterexample :
    process_build_done envCommitFail jobTwoArch true "fb" =
      ([.repoCmd "x86" (.add "/d/foo_1.0.mmpack-manifest"),
        .repoCmd "arm" (.add "/d/foo_1.0.mmpack-manifest"),
        .repoCmd "x86" RCmd.commit, .repoCmd "arm" RCmd.commit],
       some (.runtimeError "Failed to COMMIT in main/arm: [\x27disk full\x27]")) ∧
    countNotify (process_build_done envCommitFail jobTwoArch true "fb").1 = 0 :=
  ⟨rfl, rfl⟩

/-- C2 (amended): if all builds and all `ADD` commands succeed but some
repository rejects its `COMMIT` in the final sweep, then no rollback is
issued and the repositories committed before the failure retain their change
(the trace is exactly the adds, the good commits and the failing commit),
but the failure is NOT reported: `notify_result` is never called and the
raised exception escapes the commit worker. -/
theorem C2_commit_sweep_failure (env : SchedEnv) (job : BuildJob) (m fb : String)
    (good : List String) (bad : String) (rest : List String)
    (hup : job.do_upload = true)
    (hmerge : merge_manifests job.pkgdir job.manifests = .ok m)
    (harchs : job.archs = good ++ bad :: rest)
    (hrepo : ∀ a ∈ job.archs, env.hasRepo a = true)
    (hadd : ∀ a ∈ job.archs, isOkReply (env.reply a (.add m)) = true)
    (hgood : ∀ a ∈ good, isOkReply (env.reply a RCmd.commit) = true)
    (hbad : isOkReply (env.reply bad RCmd.commit) = false) :
    (∃ e, (process_build_done env job true fb).2 = some e) ∧
    (process_build_done env job true fb).1 =
      job.archs.map (fun a => Event.repoCmd a (.add m)) ++
      (good ++ [bad]).map (fun a => Event.repoCmd a RCmd.commit) ∧
    countNotify (process_build_done env job true fb).1 = 0 ∧
    ∀ a, Event.repoCmd a RCmd.rollback ∉ (process_build_done env job true fb).1 := by
  have htb : tryBody env job =
      (job.archs.map (fun a => Event.repoCmd a (.add m)), job.archs, none) := by
    unfold tryBody
    rw [hmerge]
    exact addLoop_ok env job.upload_repo m job.archs (fun a ha => ⟨hrepo a ha, hadd a ha⟩)
  obtain ⟨ce, hcm⟩ := cmdLoop_fail env job.upload_repo RCmd.commit good bad rest hgood hbad
  have hmain : process_build_done env job true fb =
      (job.archs.map (fun a => Event.repoCmd a (.add m)) ++
        (good ++ [bad]).map (fun a => Event.repoCmd a RCmd.commit), some ce) := by
    simp [process_build_done, hup, htb, harchs, hcm]
  refine ⟨⟨ce, by rw [hmain]⟩, by rw [hmain], ?_, ?_⟩
  · rw [hmain]
    simp [countNotify_append, countNotify_map_repoCmd, countNotify, isNotifyEv]
  · intro a
    rw [hmain]
    simp

/-- Witness for C2 (amended) at the concrete input of the counterexample. -/
theorem C2_commit_sweep_failure_witness :
    (∃ e, (process_build_done envCommitFail jobTwoArch true "fb").2 = some e) ∧
    countNotify (process_build_done envCommitFail jobTwoArch true "fb").1 = 0 := by
  have h := C2_commit_sweep_failure envCommitFail jobTwoArch "/d/foo_1.0.mmpack-manifest"
    "fb" ["x86"] "arm" [] rfl rfl rfl (by decide) (by decide) (by decide) (by decide)
  exact ⟨h.1, h.2.2.1⟩

/-- C3 counterexample: the `arm` repository rejects `ADD`, so the recovery
rollback loop runs, but the `x86` rollback itself is rejected: `arm`
received `ADD` yet never receives `ROLLBACK`, and `notify_result` is never
invoked — the new exception escapes the worker — contradicting the claim as
stated. -/
theorem C3_counterexample :
    process_build_done envRollbackFail jobTwoArch true "fb" =
      ([.repoCmd "x86" (.add "/d/foo_1.0.mmpack-manifest"),
        .repoCmd "arm" (.add "/d/foo_1.0.mmpack-manifest"),
        .repoCmd "x86" RCmd.rollback],
       some (.runtimeError "Failed to ROLLBACK in main/x86: [\x27io error\x27]")) ∧
    Event.repoCmd "arm" RCmd.rollback ∉
      (process_build_done envRollbackFail jobTwoArch true "fb").1 ∧
    countNotify (process_build_done envRollbackFail jobTwoArch true "fb").1 = 0 :=
  ⟨rfl, by decide, rfl⟩

/-- C3 (amended): when manifest merging fails, no repository is contacted at
all and `notify_result(false, cause)` fires; when an `ADD` fails and every
`ROLLBACK` issued during recovery succeeds, no `COMMIT` is sent, `ROLLBACK`
is sent to exactly the repositories that received `ADD` (in order, and to no
untouched repository) and `notify_result(false, cause)` is invoked. -/
theorem C3_add_failure_recovery (env : SchedEnv) (job : BuildJob) (fb : String)
    (hup : job.do_upload = true) :
    (∀ e, merge_manifests job.pkgdir job.manifests = .error e →
      process_build_done env job true fb = ([.notify false (some (pyStr e))], none)) ∧
    (∀ m good bad rest,
      merge_manifests job.pkgdir job.manifests = .ok m →
      job.archs = good ++ bad :: rest →
      (∀ a ∈ good, env.hasRepo a = true ∧ isOkReply (env.reply a (.add m)) = true) →
      env.hasRepo bad = true →
      isOkReply (env.reply bad (.add m)) = false →
      (∀ a ∈ good ++ [bad], isOkReply (env.reply a RCmd.rollback) = true) →
      ∃ e, process_build_done env job true fb =
        ((good ++ [bad]).map (fun a => Event.repoCmd a (.add m)) ++
         (good ++ [bad]).map (fun a => Event.repoCmd a RCmd.rollback) ++
         [.notify false (some (pyStr e))], none)) := by
  constructor
  · intro e hmerge
    have htb : tryBody env job = ([], [], some e) := by
      unfold tryBody
      rw [hmerge]
    simp [process_build_done, hup, htb, cmdLoop]
  · intro m good bad rest hmerge harchs hgood hbadrepo hbadadd hrb
    obtain ⟨e, haf⟩ := addLoop_fail env job.upload_repo m good bad rest hgood hbadrepo hbadadd
    have htb : tryBody env job =
        ((good ++ [bad]).map (fun a => Event.repoCmd a (.add m)), good ++ [bad], some e) := by
      unfold tryBody
      rw [hmerge, harchs]
      exact haf
    have hroll := cmdLoop_ok env job.upload_repo RCmd.rollback (good ++ [bad]) hrb
    exact ⟨e, by simp [process_build_done, hup, htb, hroll]⟩

/-- Witness for C3 (amended): the `arm` `ADD` fails, rollbacks succeed, and
the run ends with the failure notification. -/
theorem C3_add_failure_recovery_witness :
    ∃ e, process_build_done envAddFail jobTwoArch true "fb" =
      ((["x86"] ++ ["arm"]).map
         (fun a => Event.repoCmd a (.add "/d/foo_1.0.mmpack-manifest")) ++
       (["x86"] ++ ["arm"]).map (fun a => Event.repoCmd a RCmd.rollback) ++
       [.notify false (some (pyStr e))], none) :=
  (C3_add_failure_recovery envAddFail jobTwoArch "fb" rfl).2 "/d/foo_1.0.mmpack-manifest"
    ["x86"] "arm" [] rfl rfl (by decide) (by decide) (by decide) (by decide)

/-- C1 counterexample: a job whose `archs` are non-empty after rule
application but whose `make_srcpkg` finds no mmpack packaging is silently
dropped by `add_job` — zero `notify_result` calls — so "called exactly once
iff `archs` is non-empty after rule application" is false. -/
theorem C1_counterexample :
    ¬ (countNotify (runJob envNoSrcpkg [] queuesTwo jobTwoArch).1 = 1 ↔
       (applyRules [] jobTwoArch).archs ≠ []) := by
  intro hiff
  have h0 : countNotify (runJob envNoSrcpkg [] queuesTwo jobTwoArch).1 = 0 := rfl
  have h1 : (applyRules [] jobTwoArch).archs ≠ [] := by decide
  have h2 := hiff.mpr h1
  rw [h0] at h2
  exact absurd h2 (by decide)

/-- C1 (amended): over a whole run, `notify_result` is called at most once
per produced job, and it is called exactly once iff the job had non-empty
`archs` after rule application AND `make_srcpkg` produced a source package
AND no exception escaped the run (scheduling error, failed recovery
rollback, or failed final commit). -/
theorem C1_notify_amended (env : SchedEnv) (rules : List FilterRule)
    (queues : List BuilderQueue) (job : BuildJob) :
    countNotify (runJob env rules queues job).1 ≤ 1 ∧
    (countNotify (runJob env rules queues job).1 = 1 ↔
      ((applyRules rules job).archs ≠ [] ∧ env.make_srcpkg_ok = true ∧
        (runJob env rules queues job).2 = none)) := by
  unfold runJob
  rcases harch : (applyRules rules job).archs with _ | ⟨a0, as0⟩
  · simp [harch, countNotify]
  · simp only [harch, List.isEmpty_cons, Bool.false_eq_true, if_false]
    cases hmk : env.make_srcpkg_ok with
    | false => simp [countNotify]
    | true =>
      simp only [Bool.not_true, Bool.false_eq_true, if_false]
      cases hs : schedule_job_for_build queues (a0 :: as0) with
      | error e => simp [countNotify]
      | ok v =>
        have hpbd := pbd_notify env (applyRules rules job)
          (((a0 :: as0).map env.buildResult).all (fun p => p.1))
          (String.intercalate "\n" (((a0 :: as0).map env.buildResult).map (fun p => p.2)))
        refine ⟨hpbd.1, ?_⟩
        rw [hpbd.2]
        simp

end MmpackCI
